import Mathlib

/-!
Shallow embedding of the frame-sequence core (`src/image_matrix.rs` together with
the `Direction` enum of `src/main.rs`) of the maturski LED-matrix editor.

Modelling conventions:
* `Vec<Vec<bool>>` becomes `List (List Bool)`; `u8`/`usize` indices become `Nat`;
  the `i16` arithmetic inside `slide` becomes `Int` (the values involved are
  bounded by 64·64, far below the `i16` range, so no wrap can occur).
* Rust operations that can panic on an out-of-range index (`Vec` indexing,
  `Vec::insert`, `Vec::remove`, `Vec::swap`, `Option::unwrap`) are modelled by
  returning `Option`: `none` is the panic, `some` the normal result.
* Iterator pipelines (`fold`, `for_each`, `chunks_exact`, ranges) become
  `List.foldl` over `List.range`, keeping the iteration order of the source.
-/

inductive Direction
  | Top
  | Left
  | Bottom
  | Right
deriving DecidableEq

inductive SlideAnimation
  | SlideIn
  | SlideOut
deriving DecidableEq

structure ImageSequence where
  bitmaps : List (List Bool)
  width : Nat
  height : Nat
deriving DecidableEq

namespace ImageSequence

/-- Embeds `ImageSequence::new`: one all-false frame of `width*8 * height*8` pixels. -/
def new (width height : Nat) : ImageSequence :=
  { bitmaps := [List.replicate (width * 8 * height * 8) false]
    width := width
    height := height }

/-- Embeds `ImageSequence::get_frame_count`. -/
def get_frame_count (s : ImageSequence) : Nat :=
  s.bitmaps.length

/-- Embeds `ImageSequence::get_dimensions_pixels`. -/
def get_dimensions_pixels (s : ImageSequence) : Nat × Nat :=
  (s.width * 8, s.height * 8)

/-- Embeds `ImageSequence::get`: bounds-checked pixel read, row-major addressing. -/
def get (s : ImageSequence) (x y idx : Nat) : Option Bool :=
  if x < s.width * 8 ∧ y < s.height * 8 then
    (s.bitmaps[idx]?).bind fun frame => frame[y * (s.width * 8) + x]?
  else none

/-- Embeds `ImageSequence::get_mut` followed by writing `v` through the returned
reference (the way the editor mutates single pixels); `none` when any coordinate
is out of range. -/
def set (s : ImageSequence) (x y idx : Nat) (v : Bool) : Option ImageSequence :=
  if x < s.width * 8 ∧ y < s.height * 8 then
    (s.bitmaps[idx]?).bind fun frame =>
      (frame[y * (s.width * 8) + x]?).map fun _ =>
        { s with bitmaps := s.bitmaps.set idx (frame.set (y * (s.width * 8) + x) v) }
  else none

/-- Embeds `ImageSequence::get_frame`. -/
def get_frame (s : ImageSequence) (idx : Nat) : Option (List Bool) :=
  s.bitmaps[idx]?

/-- Embeds the free function `bits_to_byte`: left fold `byte << 1 | bit` on `u8`
(the shift discards the high bit, hence the `% 256`). -/
def bits_to_byte (bits : List Bool) : Nat :=
  bits.foldl (fun byte bit => byte * 2 % 256 ||| (if bit then 1 else 0)) 0

/-- Embeds `chunks_exact(8)` on a boolean slice: full groups of eight in order,
any shorter remainder dropped. -/
def chunksExact8 : List Bool → List (List Bool)
  | b0 :: b1 :: b2 :: b3 :: b4 :: b5 :: b6 :: b7 :: rest =>
      [b0, b1, b2, b3, b4, b5, b6, b7] :: chunksExact8 rest
  | _ => []

/-- Embeds `ImageSequence::get_bytes`: `self.bitmaps[idx]` panics (`none`) when
`idx` is out of range, otherwise the frame is packed eight pixels per byte. -/
def get_bytes (s : ImageSequence) (idx : Nat) : Option (List Nat) :=
  (s.bitmaps[idx]?).map fun frame => (chunksExact8 frame).map bits_to_byte

/-- Embeds `ImageSequence::add_frame`. -/
def add_frame (s : ImageSequence) : ImageSequence :=
  { s with bitmaps := s.bitmaps ++ [List.replicate (s.width * 8 * s.height * 8) false] }

/-- Embeds `ImageSequence::insert_frame`: `Vec::insert` panics (`none`) when
`idx > len`. -/
def insert_frame (s : ImageSequence) (idx : Nat) : Option ImageSequence :=
  if idx ≤ s.bitmaps.length then
    some { s with
      bitmaps := s.bitmaps.insertIdx idx (List.replicate (s.width * 8 * s.height * 8) false) }
  else none

/-- Embeds `ImageSequence::duplicate_frame`: `self.bitmaps[idx]` panics (`none`)
when `idx` is out of range, otherwise a copy is inserted at `idx + 1`. -/
def duplicate_frame (s : ImageSequence) (idx : Nat) : Option ImageSequence :=
  match s.bitmaps[idx]? with
  | some frame => some { s with bitmaps := s.bitmaps.insertIdx (idx + 1) frame }
  | none => none

/-- Embeds `Vec::swap` on the frame list (both indices must be in range). -/
def swapFrames (l : List (List Bool)) (i j : Nat) : List (List Bool) :=
  (l.set i (l.getD j [])).set j (l.getD i [])

/-- Embeds `ImageSequence::move_up`: returns `false` unchanged at index 0,
otherwise swaps with the previous frame (`swap` panics, `none`, when `idx` is
out of range). -/
def move_up (s : ImageSequence) (idx : Nat) : Option (Bool × ImageSequence) :=
  if idx ≠ 0 then
    if idx < s.bitmaps.length then
      some (true, { s with bitmaps := swapFrames s.bitmaps idx (idx - 1) })
    else none
  else some (false, s)

/-- Embeds `ImageSequence::move_down`: returns `false` unchanged at the last
index, otherwise swaps with the next frame (`swap` panics, `none`, when
`idx + 1` is out of range). -/
def move_down (s : ImageSequence) (idx : Nat) : Option (Bool × ImageSequence) :=
  if idx ≠ s.bitmaps.length - 1 then
    if idx + 1 < s.bitmaps.length then
      some (true, { s with bitmaps := swapFrames s.bitmaps idx (idx + 1) })
    else none
  else some (false, s)

/-- Embeds `ImageSequence::delete_frame`: `Vec::remove` panics (`none`) when
`idx` is out of range. -/
def delete_frame (s : ImageSequence) (idx : Nat) : Option ImageSequence :=
  if idx < s.bitmaps.length then
    some { s with bitmaps := s.bitmaps.eraseIdx idx }
  else none

/-- Embeds `ImageSequence::clear_frame`: `self.bitmaps[idx]` panics (`none`)
when `idx` is out of range, otherwise every pixel of that frame is set false. -/
def clear_frame (s : ImageSequence) (idx : Nat) : Option ImageSequence :=
  match s.bitmaps[idx]? with
  | some frame => some { s with bitmaps := s.bitmaps.set idx (frame.map fun _ => false) }
  | none => none

/-- Embeds the hex digit table used by the `{:#04X}` format. -/
def hexDigit (n : Nat) : Char :=
  "0123456789ABCDEF".data.getD n '0'

/-- Embeds `format!("{:#04X}")` for a byte value: `0x` then two uppercase hex
digits (total width four, zero padded). -/
def formatByteHex (b : Nat) : String :=
  String.mk ['0', 'x', hexDigit (b / 16 % 16), hexDigit (b % 16)]

/-- Embeds `ImageSequence::get_frame_as_string`: the fold over the packed bytes
with the mutable `first` flag, wrapped in braces; `none` models the panic of
`get_bytes` on an out-of-range index. -/
def get_frame_as_string (s : ImageSequence) (idx : Nat) : Option String :=
  (s.get_bytes idx).map fun bytes =>
    "\x7b" ++
      (bytes.foldl
        (fun acc current =>
          if acc.2 then (formatByteHex current, false)
          else (acc.1 ++ ", " ++ formatByteHex current, false))
        ("", true)).1 ++
    "\x7d"

/-- Embeds the `dimension` computation at the top of `ImageSequence::slide`. -/
def dirDimension (s : ImageSequence) (direction : Direction) : Nat :=
  (match direction with
   | Direction.Top | Direction.Bottom => s.height
   | Direction.Left | Direction.Right => s.width) * 8

/-- Embeds the unit step vector of `ImageSequence::slide`. -/
def dirVector : Direction → Int × Int
  | Direction.Top => (0, -1)
  | Direction.Left => (-1, 0)
  | Direction.Bottom => (0, 1)
  | Direction.Right => (1, 0)

/-- Embeds the per-frame shift magnitude of `ImageSequence::slide`. -/
def slideShift (dimension : Nat) (animation : SlideAnimation) (i : Nat) : Int :=
  match animation with
  | SlideAnimation.SlideIn => (dimension : Int) - (i : Int) - 1
  | SlideAnimation.SlideOut => (i : Int)

/-- Embeds the bounds test `(0..width).contains(&new_x) && (0..height).contains(&new_y)`
of the inner loop of `ImageSequence::slide` for the source pixel of flat index
`i` (so `current_pixel = (i % w, i / w)`) displaced by `d`. -/
def inBounds (w h : Nat) (d : Int × Int) (i : Nat) : Prop :=
  0 ≤ ((i % w : Nat) : Int) + d.1 ∧ ((i % w : Nat) : Int) + d.1 < (w : Int) ∧
    0 ≤ ((i / w : Nat) : Int) + d.2 ∧ ((i / w : Nat) : Int) + d.2 < (h : Int)

instance (w h : Nat) (d : Int × Int) (i : Nat) : Decidable (inBounds w h d i) := by
  unfold inBounds; infer_instance

/-- Embeds the flat row-major index `new_y * width + new_x` of the displaced
pixel written by the inner loop of `ImageSequence::slide`. -/
def destIndex (w : Nat) (d : Int × Int) (i : Nat) : Nat :=
  (((i / w : Nat) : Int) + d.2).toNat * w + (((i % w : Nat) : Int) + d.1).toNat

/-- Embeds the value read from the snapshot for the source pixel of flat index
`i`: `current_frame[current_pixel.y * width + current_pixel.x]`. -/
def srcValue (w : Nat) (snapshot : List Bool) (i : Nat) : Bool :=
  snapshot.getD (i / w * w + i % w) false

/-- Embeds the body of the inner loop of `ImageSequence::slide` for one output
frame: `clear_frame` (the all-false initial frame) followed by the row-major
pass over every source pixel, writing the snapshot value at the displaced
position whenever that position is inside the grid. -/
def shiftedFrame (w h : Nat) (snapshot : List Bool) (d : Int × Int) : List Bool :=
  (List.range (w * h)).foldl
    (fun frame i =>
      if inBounds w h d i then frame.set (destIndex w d i) (srcValue w snapshot i)
      else frame)
    (List.replicate (w * h) false)

/-- Embeds the duplication loop of `ImageSequence::slide`: `n` successive calls
of `duplicate_frame(idx)` on the frame list (each inserts a copy of the current
frame `idx` at `idx + 1`; within `slide` every call has `idx` in range). -/
def slideDup (bms : List (List Bool)) (idx n : Nat) : List (List Bool) :=
  (List.range n).foldl (fun b _ => b.insertIdx (idx + 1) (b.getD idx [])) bms

/-- Embeds the frame-rewriting phase of `ImageSequence::slide`: after the
duplication loop, the origin frame is snapshotted and each output frame
`idx + i`, for `i` iterated downward over `0..dimension`, is cleared and
repopulated from the snapshot displaced by `vector * shift`. -/
def slideBitmaps (w h : Nat) (bms : List (List Bool)) (idx dimension : Nat)
    (vector : Int × Int) (animation : SlideAnimation) : List (List Bool) :=
  let expanded := slideDup bms idx (dimension - 1)
  let current_frame := expanded.getD idx []
  ((List.range dimension).reverse).foldl
    (fun b i =>
      b.set (idx + i)
        (shiftedFrame w h current_frame
          (vector.1 * slideShift dimension animation i,
           vector.2 * slideShift dimension animation i)))
    expanded

/-- Embeds `ImageSequence::slide`. The first `duplicate_frame` call panics
(`none`) when `idx` is out of range; afterwards every index the source touches
is in range, so the remaining computation is the pure `slideBitmaps`. -/
def slide (s : ImageSequence) (idx : Nat) (direction : Direction)
    (animation : SlideAnimation) : Option ImageSequence :=
  if idx < s.bitmaps.length then
    some { s with
      bitmaps := slideBitmaps (s.width * 8) (s.height * 8) s.bitmaps idx
        (dirDimension s direction) (dirVector direction) animation }
  else none

/-- Well-formedness from the data model: unit dimensions lie in `[1, 8]` and
every stored frame has exactly `width_px * height_px` pixels. -/
def Wf (s : ImageSequence) : Prop :=
  1 ≤ s.width ∧ s.width ≤ 8 ∧ 1 ≤ s.height ∧ s.height ≤ 8 ∧
    ∀ f ∈ s.bitmaps, f.length = s.width * 8 * (s.height * 8)

instance (s : ImageSequence) : Decidable (Wf s) := by
  unfold Wf; infer_instance

end ImageSequence

/-- Modelled from the spec: MSB-first unpacking of one byte into eight booleans
(the first pixel of a group is bit 7). This is the specification-side inverse
used to state the byte packing round-trip. -/
def byteToBits (b : Nat) : List Bool :=
  [b.testBit 7, b.testBit 6, b.testBit 5, b.testBit 4,
   b.testBit 3, b.testBit 2, b.testBit 1, b.testBit 0]

/-- Example store: a fresh 1-unit by 1-unit store (8 by 8 pixels) whose only
frame has exactly one lit pixel, at (0, 0), written through the bounds-checked
setter. -/
def exOnePixel : ImageSequence :=
  ((ImageSequence.new 1 1).set 0 0 0 true).getD (ImageSequence.new 1 1)

/-- Example store: a fresh 1-unit by 1-unit store with a second blank frame
appended, used to exercise the reorder operations. -/
def exTwoFrames : ImageSequence :=
  (ImageSequence.new 1 1).add_frame

/-- Example store for the byte round-trip: a single 16-pixel frame holding the
MSB-first unpacking of the bytes 0xA5 and 0x3C. -/
def exBytes : ImageSequence :=
  { bitmaps := [[165, 60].flatMap byteToBits], width := 2, height := 1 }

/-! Generic lemmas about left folds that write list cells, used to analyse the
two imperative loops inside `slide`. -/

theorem foldl_set_length {α : Type} (f : Nat → Nat) (g : Nat → α) (L : List Nat)
    (init : List α) :
    (L.foldl (fun b i => b.set (f i) (g i)) init).length = init.length := by
  induction L generalizing init with
  | nil => rfl
  | cons a L ih => rw [List.foldl_cons, ih, List.length_set]

theorem foldl_set_skip {α : Type} (f : Nat → Nat) (g : Nat → α) (L : List Nat)
    (init : List α) (j : Nat) (h : ∀ i ∈ L, f i ≠ j) :
    (L.foldl (fun b i => b.set (f i) (g i)) init)[j]? = init[j]? := by
  induction L generalizing init with
  | nil => rfl
  | cons a L ih =>
      rw [List.foldl_cons, ih _ (fun i hi => h i (List.mem_cons_of_mem _ hi)),
        List.getElem?_set_ne (h a (List.mem_cons_self _ _))]

theorem foldl_set_stable {α : Type} (f : Nat → Nat) (g : Nat → α) (L : List Nat)
    (init : List α) (j : Nat) (v : α) (hv : ∀ i ∈ L, f i = j → g i = v)
    (h0 : init[j]? = some v) :
    (L.foldl (fun b i => b.set (f i) (g i)) init)[j]? = some v := by
  induction L generalizing init with
  | nil => exact h0
  | cons a L ih =>
      rw [List.foldl_cons]
      refine ih _ (fun i hi hf => hv i (List.mem_cons_of_mem _ hi) hf) ?_
      by_cases hfa : f a = j
      · have hj : j < init.length := by
          rcases List.getElem?_eq_some_iff.mp h0 with ⟨h, _⟩
          exact h
        rw [hfa, List.getElem?_set_self hj, hv a (List.mem_cons_self _ _) hfa]
      · rw [List.getElem?_set_ne hfa, h0]

theorem foldl_set_hit {α : Type} (f : Nat → Nat) (g : Nat → α) (L : List Nat)
    (init : List α) (j i0 : Nat) (hmem : i0 ∈ L) (hf : f i0 = j)
    (huniq : ∀ i ∈ L, f i = j → i = i0) (hj : j < init.length) :
    (L.foldl (fun b i => b.set (f i) (g i)) init)[j]? = some (g i0) := by
  induction L generalizing init with
  | nil => cases hmem
  | cons a L ih =>
      rw [List.foldl_cons]
      by_cases hfa : f a = j
      · have ha : a = i0 := huniq a (List.mem_cons_self _ _) hfa
        subst ha
        refine foldl_set_stable f g L _ j (g a)
          (fun i hi hif => by rw [huniq i (List.mem_cons_of_mem _ hi) hif]) ?_
        rw [hfa, List.getElem?_set_self hj]
      · have hmem' : i0 ∈ L := by
          rcases List.mem_cons.mp hmem with h1 | h1
          · exact absurd (h1 ▸ hf) hfa
          · exact h1
        exact ih _ hmem' (fun i hi => huniq i (List.mem_cons_of_mem _ hi))
          (by rw [List.length_set]; exact hj)

theorem foldl_condSet_length {α : Type} (P : Nat → Prop) [DecidablePred P]
    (f : Nat → Nat) (g : Nat → α) (L : List Nat) (init : List α) :
    (L.foldl (fun b i => if P i then b.set (f i) (g i) else b) init).length
      = init.length := by
  induction L generalizing init with
  | nil => rfl
  | cons a L ih =>
      rw [List.foldl_cons, ih]
      by_cases hP : P a
      · rw [if_pos hP, List.length_set]
      · rw [if_neg hP]

theorem foldl_condSet_skip {α : Type} (P : Nat → Prop) [DecidablePred P]
    (f : Nat → Nat) (g : Nat → α) (L : List Nat) (init : List α) (j : Nat)
    (h : ∀ i ∈ L, P i → f i ≠ j) :
    (L.foldl (fun b i => if P i then b.set (f i) (g i) else b) init)[j]?
      = init[j]? := by
  induction L generalizing init with
  | nil => rfl
  | cons a L ih =>
      rw [List.foldl_cons, ih _ (fun i hi hP => h i (List.mem_cons_of_mem _ hi) hP)]
      by_cases hP : P a
      · rw [if_pos hP, List.getElem?_set_ne (h a (List.mem_cons_self _ _) hP)]
      · rw [if_neg hP]

theorem foldl_condSet_stable {α : Type} (P : Nat → Prop) [DecidablePred P]
    (f : Nat → Nat) (g : Nat → α) (L : List Nat) (init : List α) (j : Nat) (v : α)
    (hv : ∀ i ∈ L, P i → f i = j → g i = v) (h0 : init[j]? = some v) :
    (L.foldl (fun b i => if P i then b.set (f i) (g i) else b) init)[j]?
      = some v := by
  induction L generalizing init with
  | nil => exact h0
  | cons a L ih =>
      rw [List.foldl_cons]
      refine ih _ (fun i hi hP hf => hv i (List.mem_cons_of_mem _ hi) hP hf) ?_
      by_cases hP : P a
      · rw [if_pos hP]
        by_cases hfa : f a = j
        · have hj : j < init.length := by
            rcases List.getElem?_eq_some_iff.mp h0 with ⟨h, _⟩
            exact h
          rw [hfa, List.getElem?_set_self hj, hv a (List.mem_cons_self _ _) hP hfa]
        · rw [List.getElem?_set_ne hfa, h0]
      · rw [if_neg hP]; exact h0

theorem foldl_condSet_hit {α : Type} (P : Nat → Prop) [DecidablePred P]
    (f : Nat → Nat) (g : Nat → α) (L : List Nat) (init : List α) (j i0 : Nat)
    (hmem : i0 ∈ L) (hP0 : P i0) (hf : f i0 = j)
    (huniq : ∀ i ∈ L, P i → f i = j → i = i0) (hj : j < init.length) :
    (L.foldl (fun b i => if P i then b.set (f i) (g i) else b) init)[j]?
      = some (g i0) := by
  induction L generalizing init with
  | nil => cases hmem
  | cons a L ih =>
      rw [List.foldl_cons]
      by_cases hhit : P a ∧ f a = j
      · have ha : a = i0 := huniq a (List.mem_cons_self _ _) hhit.1 hhit.2
        subst ha
        refine foldl_condSet_stable P f g L _ j (g a)
          (fun i hi hP hif => by rw [huniq i (List.mem_cons_of_mem _ hi) hP hif]) ?_
        rw [if_pos hhit.1, hhit.2, List.getElem?_set_self hj]
      · have hmem' : i0 ∈ L := by
          rcases List.mem_cons.mp hmem with h1 | h1
          · exact absurd ⟨h1 ▸ hP0, h1 ▸ hf⟩ hhit
          · exact h1
        have huniq' : ∀ i ∈ L, P i → f i = j → i = i0 :=
          fun i hi => huniq i (List.mem_cons_of_mem _ hi)
        by_cases hP : P a
        · rw [if_pos hP]
          exact ih _ hmem' huniq' (by rw [List.length_set]; exact hj)
        · rw [if_neg hP]
          exact ih _ hmem' huniq' hj

/-! Arithmetic helpers for row-major index encoding. -/

theorem encode_lt {x y w h : Nat} (hx : x < w) (hy : y < h) : y * w + x < w * h := by
  calc y * w + x < y * w + w := Nat.add_lt_add_left hx _
    _ = (y + 1) * w := (Nat.succ_mul y w).symm
    _ ≤ h * w := Nat.mul_le_mul_right w hy
    _ = w * h := Nat.mul_comm h w

theorem encode_div {a b w : Nat} (hb : b < w) : (a * w + b) / w = a := by
  have hw : 0 < w := Nat.pos_of_ne_zero (by rintro rfl; exact Nat.not_lt_zero b hb)
  rw [Nat.add_comm, Nat.add_mul_div_right b a hw, Nat.div_eq_of_lt hb, Nat.zero_add]

theorem encode_mod {a b w : Nat} (hb : b < w) : (a * w + b) % w = b := by
  rw [Nat.add_comm, Nat.add_mul_mod_self_right, Nat.mod_eq_of_lt hb]

theorem encode_inj {a b c d w : Nat} (hb : b < w) (hd : d < w)
    (h : a * w + b = c * w + d) : a = c ∧ b = d := by
  have h1 : (a * w + b) / w = a := encode_div hb
  have h2 : (c * w + d) / w = c := encode_div hd
  have h3 : (a * w + b) % w = b := encode_mod hb
  have h4 : (c * w + d) % w = d := encode_mod hd
  refine ⟨?_, ?_⟩
  · rw [← h1, h, h2]
  · rw [← h3, h, h4]

theorem decode_eq (i w : Nat) : i / w * w + i % w = i := by
  rw [Nat.mul_comm]
  exact Nat.div_add_mod i w

theorem div_lt_of_lt_mul {i w h : Nat} (hw : 0 < w) (hi : i < w * h) : i / w < h := by
  rw [Nat.div_lt_iff_lt_mul hw, Nat.mul_comm h w]
  exact hi

/-! Structure of the duplication loop of `slide`. -/

theorem insertIdx_eq_take_cons_drop {α : Type} (a : α) :
    ∀ (n : Nat) (l : List α), n ≤ l.length →
      l.insertIdx n a = l.take n ++ a :: l.drop n
  | 0, l, _ => by simp
  | n + 1, [], h => by simp at h
  | n + 1, x :: l, h => by
      rw [List.insertIdx_succ_cons, List.take_succ_cons, List.drop_succ_cons,
        List.cons_append, insertIdx_eq_take_cons_drop a n l (Nat.le_of_succ_le_succ h)]

theorem slideDup_eq (bms : List (List Bool)) (idx : Nat)
    (hidx : idx < bms.length) :
    ∀ n, ImageSequence.slideDup bms idx n
      = bms.take (idx + 1) ++ List.replicate n (bms.getD idx []) ++ bms.drop (idx + 1) := by
  have hlen_take : (bms.take (idx + 1)).length = idx + 1 :=
    List.length_take_of_le (Nat.succ_le_of_lt hidx)
  intro n
  induction n with
  | zero => simp [ImageSequence.slideDup]
  | succ n ih =>
      have step : ∀ cur : List (List Bool),
          (List.range (n + 1)).foldl (fun b _ => b.insertIdx (idx + 1) (b.getD idx [])) bms
            = ((List.range n).foldl (fun b _ => b.insertIdx (idx + 1) (b.getD idx [])) bms).insertIdx
                (idx + 1)
                (((List.range n).foldl (fun b _ => b.insertIdx (idx + 1) (b.getD idx [])) bms).getD
                  idx []) := by
        intro _
        rw [List.range_succ, List.foldl_append, List.foldl_cons, List.foldl_nil]
      rw [ImageSequence.slideDup] at ih ⊢
      rw [step bms, ih]
      have hget : ((bms.take (idx + 1) ++ List.replicate n (bms.getD idx []) ++
          bms.drop (idx + 1))).getD idx [] = bms.getD idx [] := by
        rw [List.getD_eq_getElem?_getD, List.append_assoc,
          List.getElem?_append_left (by rw [hlen_take]; exact Nat.lt_succ_self idx),
          List.getElem?_take_of_lt (Nat.lt_succ_self idx), ← List.getD_eq_getElem?_getD]
      rw [hget]
      have hlen : idx + 1 ≤ (bms.take (idx + 1) ++ List.replicate n (bms.getD idx []) ++
          bms.drop (idx + 1)).length := by
        rw [List.length_append, List.length_append, hlen_take]
        omega
      rw [insertIdx_eq_take_cons_drop _ _ _ hlen, List.append_assoc,
        List.take_left' hlen_take, List.append_assoc, List.drop_left' hlen_take,
        List.replicate_succ, List.cons_append]

theorem slideDup_length (bms : List (List Bool)) (idx : Nat)
    (hidx : idx < bms.length) (n : Nat) :
    (ImageSequence.slideDup bms idx n).length = bms.length + n := by
  rw [slideDup_eq bms idx hidx n, List.length_append, List.length_append,
    List.length_take_of_le (Nat.succ_le_of_lt hidx), List.length_replicate,
    List.length_drop]
  omega

theorem slideDup_getD_idx (bms : List (List Bool)) (idx : Nat)
    (hidx : idx < bms.length) (n : Nat) :
    (ImageSequence.slideDup bms idx n).getD idx [] = bms.getD idx [] := by
  rw [slideDup_eq bms idx hidx n, List.getD_eq_getElem?_getD, List.append_assoc,
    List.getElem?_append_left
      (by rw [List.length_take_of_le (Nat.succ_le_of_lt hidx)]; exact Nat.lt_succ_self idx),
    List.getElem?_take_of_lt (Nat.lt_succ_self idx), ← List.getD_eq_getElem?_getD]

theorem slideDup_getElem?_left (bms : List (List Bool)) (idx : Nat)
    (hidx : idx < bms.length) (n j : Nat) (hj : j < idx) :
    (ImageSequence.slideDup bms idx n)[j]? = bms[j]? := by
  rw [slideDup_eq bms idx hidx n, List.append_assoc,
    List.getElem?_append_left
      (by rw [List.length_take_of_le (Nat.succ_le_of_lt hidx)]; omega),
    List.getElem?_take_of_lt (by omega)]

theorem slideDup_getElem?_right (bms : List (List Bool)) (idx : Nat)
    (hidx : idx < bms.length) (n j : Nat) (hj : idx < j) :
    (ImageSequence.slideDup bms idx n)[j + n]? = bms[j]? := by
  have hlen_take : (bms.take (idx + 1)).length = idx + 1 :=
    List.length_take_of_le (Nat.succ_le_of_lt hidx)
  rw [slideDup_eq bms idx hidx n,
    List.getElem?_append_right
      (by rw [List.length_append, hlen_take, List.length_replicate]; omega),
    List.length_append, hlen_take, List.length_replicate, List.getElem?_drop]
  congr 1
  omega

theorem slideDup_getElem?_range (bms : List (List Bool)) (idx : Nat)
    (hidx : idx < bms.length) (n i : Nat) (hi : i ≤ n) :
    (ImageSequence.slideDup bms idx n)[idx + i]? = some (bms.getD idx []) := by
  have hlen_take : (bms.take (idx + 1)).length = idx + 1 :=
    List.length_take_of_le (Nat.succ_le_of_lt hidx)
  rcases Nat.eq_zero_or_pos i with hi0 | hipos
  · subst hi0
    rw [slideDup_eq bms idx hidx n, List.append_assoc,
      List.getElem?_append_left (by rw [hlen_take]; omega),
      List.getElem?_take_of_lt (by omega), Nat.add_zero,
      List.getElem?_eq_getElem hidx, List.getD_eq_getElem?_getD,
      List.getElem?_eq_getElem hidx]
    rfl
  · rw [slideDup_eq bms idx hidx n, List.append_assoc,
      List.getElem?_append_right (by rw [hlen_take]; omega),
      List.getElem?_append_left (by rw [hlen_take, List.length_replicate]; omega)]
    rw [hlen_take]
    have : idx + i - (idx + 1) < n := by omega
    rw [List.getElem?_replicate_of_lt this]

/-! Pointwise analysis of `shiftedFrame`. -/

theorem shiftedFrame_length (w h : Nat) (snapshot : List Bool) (d : Int × Int) :
    (ImageSequence.shiftedFrame w h snapshot d).length = w * h := by
  simp only [ImageSequence.shiftedFrame]
  rw [foldl_condSet_length (ImageSequence.inBounds w h d) (ImageSequence.destIndex w d)
    (ImageSequence.srcValue w snapshot) (List.range (w * h)) (List.replicate (w * h) false)]
  exact List.length_replicate _ _

theorem shiftedFrame_writer_src {w h x y i : Nat} (d : Int × Int) (hw : 0 < w)
    (hx : x < w) (hi : i < w * h) (hP : ImageSequence.inBounds w h d i)
    (hf : ImageSequence.destIndex w d i = y * w + x) :
    i % w = ((x : Int) - d.1).toNat ∧ i / w = ((y : Int) - d.2).toNat ∧
      0 ≤ (x : Int) - d.1 ∧ (x : Int) - d.1 < (w : Int) ∧
      0 ≤ (y : Int) - d.2 ∧ (y : Int) - d.2 < (h : Int) := by
  obtain ⟨h1, h2, h3, h4⟩ := hP
  have hr : i % w < w := Nat.mod_lt i hw
  have hq : i / w < h := div_lt_of_lt_mul hw hi
  have hb : (((i % w : Nat) : Int) + d.1).toNat < w := by omega
  simp only [ImageSequence.destIndex] at hf
  have key := encode_inj hb hx hf
  have ex : (x : Int) - d.1 = ((i % w : Nat) : Int) := by
    rw [← key.2, Int.toNat_of_nonneg h1]; ring
  have ey : (y : Int) - d.2 = ((i / w : Nat) : Int) := by
    rw [← key.1, Int.toNat_of_nonneg h3]; ring
  refine ⟨?_, ?_, ?_, ?_, ?_, ?_⟩
  · rw [ex, Int.toNat_ofNat]
  · rw [ey, Int.toNat_ofNat]
  · rw [ex]; exact Int.natCast_nonneg _
  · rw [ex]; exact Int.ofNat_lt.mpr hr
  · rw [ey]; exact Int.natCast_nonneg _
  · rw [ey]; exact Int.ofNat_lt.mpr hq

theorem shiftedFrame_getElem? (w h : Nat) (hw : 0 < w) (snapshot : List Bool)
    (d : Int × Int) (x y : Nat) (hx : x < w) (hy : y < h) :
    (ImageSequence.shiftedFrame w h snapshot d)[y * w + x]? =
      some (if 0 ≤ (x : Int) - d.1 ∧ (x : Int) - d.1 < (w : Int) ∧
                0 ≤ (y : Int) - d.2 ∧ (y : Int) - d.2 < (h : Int) then
              snapshot.getD (((y : Int) - d.2).toNat * w + ((x : Int) - d.1).toNat) false
            else false) := by
  have hjlt : y * w + x < w * h := encode_lt hx hy
  by_cases hsrc : 0 ≤ (x : Int) - d.1 ∧ (x : Int) - d.1 < (w : Int) ∧
      0 ≤ (y : Int) - d.2 ∧ (y : Int) - d.2 < (h : Int)
  · rw [if_pos hsrc]
    obtain ⟨e1, e2, e3, e4⟩ := hsrc
    have hsx_lt : ((x : Int) - d.1).toNat < w := by omega
    have hsy_lt : ((y : Int) - d.2).toNat < h := by omega
    have hi0 : ((y : Int) - d.2).toNat * w + ((x : Int) - d.1).toNat < w * h :=
      encode_lt hsx_lt hsy_lt
    have hmod : (((y : Int) - d.2).toNat * w + ((x : Int) - d.1).toNat) % w
        = ((x : Int) - d.1).toNat := encode_mod hsx_lt
    have hdiv : (((y : Int) - d.2).toNat * w + ((x : Int) - d.1).toNat) / w
        = ((y : Int) - d.2).toNat := encode_div hsx_lt
    have hax : ((((((y : Int) - d.2).toNat * w + ((x : Int) - d.1).toNat) % w : Nat) : Int)
        + d.1).toNat = x := by rw [hmod]; omega
    have hay : ((((((y : Int) - d.2).toNat * w + ((x : Int) - d.1).toNat) / w : Nat) : Int)
        + d.2).toNat = y := by rw [hdiv]; omega
    simp only [ImageSequence.shiftedFrame]
    rw [foldl_condSet_hit (ImageSequence.inBounds w h d) (ImageSequence.destIndex w d)
      (ImageSequence.srcValue w snapshot) (List.range (w * h)) (List.replicate (w * h) false)
      (y * w + x) (((y : Int) - d.2).toNat * w + ((x : Int) - d.1).toNat)
      (List.mem_range.mpr hi0)
      (by simp only [ImageSequence.inBounds]; rw [hmod, hdiv]; omega)
      (by simp only [ImageSequence.destIndex]; rw [hax, hay])
      (fun i hi hPi hfi => by
        have hfacts := shiftedFrame_writer_src d hw hx (List.mem_range.mp hi) hPi hfi
        calc i = i / w * w + i % w := (decode_eq i w).symm
          _ = ((y : Int) - d.2).toNat * w + ((x : Int) - d.1).toNat := by
              rw [hfacts.1, hfacts.2.1])
      (by rw [List.length_replicate]; exact hjlt)]
    simp only [ImageSequence.srcValue]
    rw [hdiv, hmod]
  · rw [if_neg hsrc]
    simp only [ImageSequence.shiftedFrame]
    rw [foldl_condSet_skip (ImageSequence.inBounds w h d) (ImageSequence.destIndex w d)
      (ImageSequence.srcValue w snapshot) (List.range (w * h)) (List.replicate (w * h) false)
      (y * w + x)
      (fun i hi hPi hfi => by
        have hfacts := shiftedFrame_writer_src d hw hx (List.mem_range.mp hi) hPi hfi
        exact hsrc ⟨hfacts.2.2.1, hfacts.2.2.2.1, hfacts.2.2.2.2.1, hfacts.2.2.2.2.2⟩)]
    exact List.getElem?_replicate_of_lt hjlt

theorem shiftedFrame_id (w h : Nat) (hw : 0 < w) (snapshot : List Bool)
    (hlen : snapshot.length = w * h) :
    ImageSequence.shiftedFrame w h snapshot (0, 0) = snapshot := by
  apply List.ext_getElem?
  intro j
  by_cases hj : j < w * h
  · have hx : j % w < w := Nat.mod_lt j hw
    have hy : j / w < h := div_lt_of_lt_mul hw hj
    have hpt := shiftedFrame_getElem? w h hw snapshot (0, 0) (j % w) (j / w) hx hy
    simp only [Int.sub_zero, Int.toNat_ofNat] at hpt
    rw [decode_eq j w] at hpt
    rw [hpt, if_pos ⟨Int.natCast_nonneg _, Int.ofNat_lt.mpr hx,
      Int.natCast_nonneg _, Int.ofNat_lt.mpr hy⟩,
      List.getD_eq_getElem?_getD, List.getElem?_eq_getElem (show j < snapshot.length by omega)]
    rfl
  · have l1 : (ImageSequence.shiftedFrame w h snapshot (0, 0)).length ≤ j := by
      rw [shiftedFrame_length]; omega
    have l2 : snapshot.length ≤ j := by omega
    rw [List.getElem?_eq_none l1, List.getElem?_eq_none l2]

/-! Pointwise analysis of `slideBitmaps`. -/

theorem slideBitmaps_length (w h : Nat) (bms : List (List Bool)) (idx D : Nat)
    (v : Int × Int) (anim : SlideAnimation) (hidx : idx < bms.length) :
    (ImageSequence.slideBitmaps w h bms idx D v anim).length = bms.length + (D - 1) := by
  simp only [ImageSequence.slideBitmaps]
  rw [foldl_set_length (fun i => idx + i)
    (fun i => ImageSequence.shiftedFrame w h
      ((ImageSequence.slideDup bms idx (D - 1)).getD idx [])
      (v.1 * ImageSequence.slideShift D anim i, v.2 * ImageSequence.slideShift D anim i))
    ((List.range D).reverse) (ImageSequence.slideDup bms idx (D - 1))]
  exact slideDup_length bms idx hidx (D - 1)

theorem slideBitmaps_getElem?_lt (w h : Nat) (bms : List (List Bool)) (idx D : Nat)
    (v : Int × Int) (anim : SlideAnimation) (hidx : idx < bms.length)
    (j : Nat) (hj : j < idx) :
    (ImageSequence.slideBitmaps w h bms idx D v anim)[j]? = bms[j]? := by
  simp only [ImageSequence.slideBitmaps]
  rw [foldl_set_skip (fun i => idx + i)
    (fun i => ImageSequence.shiftedFrame w h
      ((ImageSequence.slideDup bms idx (D - 1)).getD idx [])
      (v.1 * ImageSequence.slideShift D anim i, v.2 * ImageSequence.slideShift D anim i))
    ((List.range D).reverse) (ImageSequence.slideDup bms idx (D - 1)) j
    (fun i hi => by
      intro hcon
      have hc2 : idx + i = j := hcon
      omega)]
  exact slideDup_getElem?_left bms idx hidx (D - 1) j hj

theorem slideBitmaps_getElem?_gt (w h : Nat) (bms : List (List Bool)) (idx D : Nat)
    (v : Int × Int) (anim : SlideAnimation) (hidx : idx < bms.length)
    (j : Nat) (hj : idx < j) :
    (ImageSequence.slideBitmaps w h bms idx D v anim)[j + (D - 1)]? = bms[j]? := by
  simp only [ImageSequence.slideBitmaps]
  rw [foldl_set_skip (fun i => idx + i)
    (fun i => ImageSequence.shiftedFrame w h
      ((ImageSequence.slideDup bms idx (D - 1)).getD idx [])
      (v.1 * ImageSequence.slideShift D anim i, v.2 * ImageSequence.slideShift D anim i))
    ((List.range D).reverse) (ImageSequence.slideDup bms idx (D - 1)) (j + (D - 1))
    (fun i hi => by
      have hiD : i < D := List.mem_range.mp (List.mem_reverse.mp hi)
      intro hcon
      have hc2 : idx + i = j + (D - 1) := hcon
      omega)]
  exact slideDup_getElem?_right bms idx hidx (D - 1) j hj

theorem slideBitmaps_getElem?_mid (w h : Nat) (bms : List (List Bool)) (idx D : Nat)
    (v : Int × Int) (anim : SlideAnimation) (hidx : idx < bms.length)
    (i : Nat) (hi : i < D) :
    (ImageSequence.slideBitmaps w h bms idx D v anim)[idx + i]? =
      some (ImageSequence.shiftedFrame w h (bms.getD idx [])
        (v.1 * ImageSequence.slideShift D anim i,
         v.2 * ImageSequence.slideShift D anim i)) := by
  simp only [ImageSequence.slideBitmaps]
  rw [foldl_set_hit (fun i => idx + i)
    (fun i => ImageSequence.shiftedFrame w h
      ((ImageSequence.slideDup bms idx (D - 1)).getD idx [])
      (v.1 * ImageSequence.slideShift D anim i, v.2 * ImageSequence.slideShift D anim i))
    ((List.range D).reverse) (ImageSequence.slideDup bms idx (D - 1)) (idx + i) i
    (List.mem_reverse.mpr (List.mem_range.mpr hi)) rfl
    (fun i2 hi2 hf2 => by
      have hf3 : idx + i2 = idx + i := hf2
      omega)
    (by rw [slideDup_length bms idx hidx]; omega)]
  rw [slideDup_getD_idx bms idx hidx]

theorem slide_eq_some (s : ImageSequence) (idx : Nat) (dir : Direction)
    (anim : SlideAnimation) (hidx : idx < s.bitmaps.length) :
    s.slide idx dir anim = some { s with
      bitmaps := ImageSequence.slideBitmaps (s.width * 8) (s.height * 8) s.bitmaps idx
        (ImageSequence.dirDimension s dir) (ImageSequence.dirVector dir) anim } := by
  simp only [ImageSequence.slide]
  rw [if_pos hidx]

theorem shiftedFrame_getElem?_pair (w h : Nat) (hw : 0 < w) (snapshot : List Bool)
    (d1 d2 : Int) (x y : Nat) (hx : x < w) (hy : y < h) :
    (ImageSequence.shiftedFrame w h snapshot (d1, d2))[y * w + x]? =
      some (if 0 ≤ (x : Int) - d1 ∧ (x : Int) - d1 < (w : Int) ∧
                0 ≤ (y : Int) - d2 ∧ (y : Int) - d2 < (h : Int) then
              snapshot.getD (((y : Int) - d2).toNat * w + ((x : Int) - d1).toNat) false
            else false) :=
  shiftedFrame_getElem? w h hw snapshot (d1, d2) x y hx hy

theorem getD_false_eq_true_iff (l : List Bool) (n : Nat) :
    l.getD n false = true ↔ l[n]? = some true := by
  rw [List.getD_eq_getElem?_getD]
  cases h : l[n]? with
  | none => simp
  | some b => simp

theorem get_eq_some_true_iff (s : ImageSequence) (x y idx : Nat)
    (hidx : idx < s.bitmaps.length) :
    s.get x y idx = some true ↔
      x < s.width * 8 ∧ y < s.height * 8 ∧
        (s.bitmaps.getD idx [])[y * (s.width * 8) + x]? = some true := by
  unfold ImageSequence.get
  rw [List.getD_eq_getElem?_getD, List.getElem?_eq_getElem hidx]
  by_cases hb : x < s.width * 8 ∧ y < s.height * 8
  · rw [if_pos hb]
    simp [hb]
  · rw [if_neg hb]
    constructor
    · intro hc; exact absurd hc (by simp)
    · rintro ⟨h1, h2, _⟩; exact absurd ⟨h1, h2⟩ hb

theorem slide_get_iff (s : ImageSequence) (idx : Nat) (dir : Direction)
    (anim : SlideAnimation) (t : ImageSequence)
    (hw : 0 < s.width)
    (hidx : idx < s.bitmaps.length)
    (ht : s.slide idx dir anim = some t)
    (i : Nat) (hi : i < ImageSequence.dirDimension s dir)
    (x' y' : Nat) (hx' : x' < s.width * 8) (hy' : y' < s.height * 8) :
    (t.get x' y' (idx + i) = some true ↔
      ∃ x y : Nat, s.get x y idx = some true ∧
        (x' : Int) = (x : Int) + (ImageSequence.dirVector dir).1 *
          ImageSequence.slideShift (ImageSequence.dirDimension s dir) anim i ∧
        (y' : Int) = (y : Int) + (ImageSequence.dirVector dir).2 *
          ImageSequence.slideShift (ImageSequence.dirDimension s dir) anim i) := by
  rw [slide_eq_some s idx dir anim hidx] at ht
  have hteq : t = { s with
      bitmaps := ImageSequence.slideBitmaps (s.width * 8) (s.height * 8) s.bitmaps idx
        (ImageSequence.dirDimension s dir) (ImageSequence.dirVector dir) anim } :=
    (Option.some.inj ht).symm
  have htb : t.bitmaps = ImageSequence.slideBitmaps (s.width * 8) (s.height * 8) s.bitmaps idx
      (ImageSequence.dirDimension s dir) (ImageSequence.dirVector dir) anim := by rw [hteq]
  have htw : t.width = s.width := by rw [hteq]
  have hth : t.height = s.height := by rw [hteq]
  have hw8 : 0 < s.width * 8 := by omega
  have hlenB : (ImageSequence.slideBitmaps (s.width * 8) (s.height * 8) s.bitmaps idx
      (ImageSequence.dirDimension s dir) (ImageSequence.dirVector dir) anim).length
      = s.bitmaps.length + (ImageSequence.dirDimension s dir - 1) :=
    slideBitmaps_length _ _ _ _ _ _ _ hidx
  have hmid := slideBitmaps_getElem?_mid (s.width * 8) (s.height * 8) s.bitmaps idx
    (ImageSequence.dirDimension s dir) (ImageSequence.dirVector dir) anim hidx i hi
  have hL := get_eq_some_true_iff t x' y' (idx + i) (by rw [htb, hlenB]; omega)
  rw [htw, hth, htb] at hL
  have hBval : (ImageSequence.slideBitmaps (s.width * 8) (s.height * 8) s.bitmaps idx
      (ImageSequence.dirDimension s dir) (ImageSequence.dirVector dir) anim).getD (idx + i) []
      = ImageSequence.shiftedFrame (s.width * 8) (s.height * 8) (s.bitmaps.getD idx [])
        ((ImageSequence.dirVector dir).1 *
          ImageSequence.slideShift (ImageSequence.dirDimension s dir) anim i,
         (ImageSequence.dirVector dir).2 *
          ImageSequence.slideShift (ImageSequence.dirDimension s dir) anim i) := by
    rw [List.getD_eq_getElem?_getD, hmid]
    rfl
  rw [hBval] at hL
  rw [hL]
  rw [shiftedFrame_getElem?_pair (s.width * 8) (s.height * 8) hw8 (s.bitmaps.getD idx [])
    ((ImageSequence.dirVector dir).1 *
      ImageSequence.slideShift (ImageSequence.dirDimension s dir) anim i)
    ((ImageSequence.dirVector dir).2 *
      ImageSequence.slideShift (ImageSequence.dirDimension s dir) anim i)
    x' y' hx' hy']
  simp only [hx', hy', true_and, Option.some.injEq]
  by_cases hC : 0 ≤ (x' : Int) - (ImageSequence.dirVector dir).1 *
        ImageSequence.slideShift (ImageSequence.dirDimension s dir) anim i ∧
      (x' : Int) - (ImageSequence.dirVector dir).1 *
        ImageSequence.slideShift (ImageSequence.dirDimension s dir) anim i
        < ((s.width * 8 : Nat) : Int) ∧
      0 ≤ (y' : Int) - (ImageSequence.dirVector dir).2 *
        ImageSequence.slideShift (ImageSequence.dirDimension s dir) anim i ∧
      (y' : Int) - (ImageSequence.dirVector dir).2 *
        ImageSequence.slideShift (ImageSequence.dirDimension s dir) anim i
        < ((s.height * 8 : Nat) : Int)
  · rw [if_pos hC]
    obtain ⟨c1, c2, c3, c4⟩ := hC
    rw [getD_false_eq_true_iff]
    constructor
    · intro hval
      refine ⟨(((x' : Int) - (ImageSequence.dirVector dir).1 *
          ImageSequence.slideShift (ImageSequence.dirDimension s dir) anim i).toNat),
        (((y' : Int) - (ImageSequence.dirVector dir).2 *
          ImageSequence.slideShift (ImageSequence.dirDimension s dir) anim i).toNat), ?_, ?_, ?_⟩
      · rw [get_eq_some_true_iff s _ _ idx hidx]
        exact ⟨by omega, by omega, hval⟩
      · omega
      · omega
    · rintro ⟨x, y, hget, hcx, hcy⟩
      rw [get_eq_some_true_iff s x y idx hidx] at hget
      obtain ⟨hxb, hyb, hval⟩ := hget
      have hxeq : (((x' : Int) - (ImageSequence.dirVector dir).1 *
          ImageSequence.slideShift (ImageSequence.dirDimension s dir) anim i).toNat) = x := by
        omega
      have hyeq : (((y' : Int) - (ImageSequence.dirVector dir).2 *
          ImageSequence.slideShift (ImageSequence.dirDimension s dir) anim i).toNat) = y := by
        omega
      rw [hxeq, hyeq]
      exact hval
  · rw [if_neg hC]
    constructor
    · intro hc; exact absurd hc (by simp)
    · rintro ⟨x, y, hget, hcx, hcy⟩
      rw [get_eq_some_true_iff s x y idx hidx] at hget
      obtain ⟨hxb, hyb, hval⟩ := hget
      exact absurd ⟨by omega, by omega, by omega, by omega⟩ hC

/-- C1: for every well-formed store, valid origin index, direction and
animation kind, after `slide` the frame at `idx + i` holds pixel `(x', y')`
true iff some pixel `(x, y)` true in the pre-call frame `idx` satisfies
`(x', y') = (x, y) + step_vector * shift_i`, with `shift_i = axis_length - i - 1`
for SlideIn and `shift_i = i` for SlideOut; out-of-range destinations are
discarded. -/
theorem c1_slide_pixel_semantics (s : ImageSequence) (idx : Nat) (dir : Direction)
    (anim : SlideAnimation) (t : ImageSequence)
    (hwf : s.Wf) (hidx : idx < s.get_frame_count)
    (ht : s.slide idx dir anim = some t)
    (i : Nat) (hi : i < ImageSequence.dirDimension s dir)
    (x' y' : Nat) (hx' : x' < s.width * 8) (hy' : y' < s.height * 8) :
    (t.get x' y' (idx + i) = some true ↔
      ∃ x y : Nat, s.get x y idx = some true ∧
        (x' : Int) = (x : Int) + (ImageSequence.dirVector dir).1 *
          ImageSequence.slideShift (ImageSequence.dirDimension s dir) anim i ∧
        (y' : Int) = (y : Int) + (ImageSequence.dirVector dir).2 *
          ImageSequence.slideShift (ImageSequence.dirDimension s dir) anim i) :=
  slide_get_iff s idx dir anim t (by obtain ⟨h1, _⟩ := hwf; omega) hidx ht i hi x' y' hx' hy'

/-- Witness for C1 at a concrete input: the fresh 1-by-1-unit store, origin 0,
direction Right, SlideIn, offset 0, pixel (0, 0). -/
theorem c1_slide_pixel_semantics_witness :
    ∃ t, (ImageSequence.new 1 1).slide 0 Direction.Right SlideAnimation.SlideIn = some t ∧
      (t.get 0 0 (0 + 0) = some true ↔
        ∃ x y : Nat, (ImageSequence.new 1 1).get x y 0 = some true ∧
          (0 : Int) = (x : Int) + (ImageSequence.dirVector Direction.Right).1 *
            ImageSequence.slideShift
              (ImageSequence.dirDimension (ImageSequence.new 1 1) Direction.Right)
              SlideAnimation.SlideIn 0 ∧
          (0 : Int) = (y : Int) + (ImageSequence.dirVector Direction.Right).2 *
            ImageSequence.slideShift
              (ImageSequence.dirDimension (ImageSequence.new 1 1) Direction.Right)
              SlideAnimation.SlideIn 0) := by
  have hs : ((ImageSequence.new 1 1).slide 0 Direction.Right SlideAnimation.SlideIn).isSome
      = true := by decide
  exact ⟨Option.get _ hs, (Option.some_get hs).symm,
    c1_slide_pixel_semantics (ImageSequence.new 1 1) 0 Direction.Right SlideAnimation.SlideIn
      (Option.get _ hs) (by decide) (by decide) (Option.some_get hs).symm
      0 (by decide) 0 0 (by decide) (by decide)⟩

/-- C10: `slide` grows the store by `axis_length - 1` frames, leaves frames
below the origin untouched, and moves every frame that was above the origin up
by `axis_length - 1` positions, bit for bit. -/
theorem c10_slide_frame_effect (s : ImageSequence) (idx : Nat) (dir : Direction)
    (anim : SlideAnimation) (t : ImageSequence)
    (hidx : idx < s.get_frame_count)
    (ht : s.slide idx dir anim = some t) :
    t.get_frame_count = s.get_frame_count + (ImageSequence.dirDimension s dir - 1) ∧
    (∀ j, j < idx → t.get_frame j = s.get_frame j) ∧
    (∀ j, idx < j → j < s.get_frame_count →
      t.get_frame (j + (ImageSequence.dirDimension s dir - 1)) = s.get_frame j) := by
  rw [slide_eq_some s idx dir anim hidx] at ht
  have hteq : t = { s with
      bitmaps := ImageSequence.slideBitmaps (s.width * 8) (s.height * 8) s.bitmaps idx
        (ImageSequence.dirDimension s dir) (ImageSequence.dirVector dir) anim } :=
    (Option.some.inj ht).symm
  have htb : t.bitmaps = ImageSequence.slideBitmaps (s.width * 8) (s.height * 8) s.bitmaps idx
      (ImageSequence.dirDimension s dir) (ImageSequence.dirVector dir) anim := by rw [hteq]
  refine ⟨?_, ?_, ?_⟩
  · show t.bitmaps.length = s.bitmaps.length + (ImageSequence.dirDimension s dir - 1)
    rw [htb]
    exact slideBitmaps_length _ _ _ _ _ _ _ hidx
  · intro j hj
    show t.bitmaps[j]? = s.bitmaps[j]?
    rw [htb]
    exact slideBitmaps_getElem?_lt _ _ _ _ _ _ _ hidx j hj
  · intro j hj _
    show t.bitmaps[j + (ImageSequence.dirDimension s dir - 1)]? = s.bitmaps[j]?
    rw [htb]
    exact slideBitmaps_getElem?_gt _ _ _ _ _ _ _ hidx j hj

/-- Witness for C10 at a concrete input: the two-frame 1-by-1-unit store with
origin 0, direction Top, SlideOut. -/
theorem c10_slide_frame_effect_witness :
    ∃ t, exTwoFrames.slide 0 Direction.Top SlideAnimation.SlideOut = some t ∧
      t.get_frame_count = exTwoFrames.get_frame_count +
        (ImageSequence.dirDimension exTwoFrames Direction.Top - 1) := by
  have hs : (exTwoFrames.slide 0 Direction.Top SlideAnimation.SlideOut).isSome = true := by
    decide
  exact ⟨Option.get _ hs, (Option.some_get hs).symm,
    (c10_slide_frame_effect exTwoFrames 0 Direction.Top SlideAnimation.SlideOut
      (Option.get _ hs) (by decide) (Option.some_get hs).symm).1⟩

/-- Counterexample for C2 as stated: in the 1-by-1-unit store whose only lit
pixel is (0, 0), the claim predicts that the SlideIn frame at offset 0 shows
the pixel shifted LEFT by 7, hence clipped out of the grid and invisible; the
code instead shifts RIGHT, so pixel (7, 0) of that frame is lit. -/
theorem c2_counterexample :
    (exOnePixel.slide 0 Direction.Right SlideAnimation.SlideIn).bind
      (fun t => t.get 7 0 0) = some true := by decide

/-- C2 amended: slide with direction Right and kind SlideIn on a single-frame
store whose only lit pixel is `(px, py)` produces `width_px` frames, the frame
at offset `width_px - 1` equals the unmodified source, and at every offset `i`
the lit pixel, when in bounds, appears at `(px + (width_px - 1 - i), py)`
(shifted right, clipped to invisible when out of bounds). -/
theorem c2_slide_right_in_single_pixel (s : ImageSequence) (px py : Nat)
    (t : ImageSequence) (hwf : s.Wf) (hcount : s.get_frame_count = 1)
    (hpx : px < s.width * 8) (hpy : py < s.height * 8)
    (hsingle : ∀ x : Nat, x < s.width * 8 → ∀ y : Nat, y < s.height * 8 →
      (s.get x y 0 = some true ↔ (x = px ∧ y = py)))
    (ht : s.slide 0 Direction.Right SlideAnimation.SlideIn = some t) :
    t.get_frame_count = s.width * 8 ∧
    t.get_frame (s.width * 8 - 1) = s.get_frame 0 ∧
    (∀ i x y : Nat, i < s.width * 8 → x < s.width * 8 → y < s.height * 8 →
      (t.get x y i = some true ↔
        ((x : Int) = (px : Int) + ((s.width * 8 : Nat) : Int) - 1 - (i : Int) ∧ y = py))) := by
  obtain ⟨hw1, hw2, hh1, hh2, hlenf⟩ := hwf
  have hlen1 : s.bitmaps.length = 1 := hcount
  have hidx : 0 < s.bitmaps.length := by omega
  have hD : ImageSequence.dirDimension s Direction.Right = s.width * 8 := rfl
  have hslide := slide_eq_some s 0 Direction.Right SlideAnimation.SlideIn hidx
  have hteq : t = { s with
      bitmaps := ImageSequence.slideBitmaps (s.width * 8) (s.height * 8) s.bitmaps 0
        (ImageSequence.dirDimension s Direction.Right)
        (ImageSequence.dirVector Direction.Right) SlideAnimation.SlideIn } :=
    (Option.some.inj (hslide.symm.trans ht)).symm
  have htb : t.bitmaps = ImageSequence.slideBitmaps (s.width * 8) (s.height * 8) s.bitmaps 0
      (ImageSequence.dirDimension s Direction.Right)
      (ImageSequence.dirVector Direction.Right) SlideAnimation.SlideIn := by rw [hteq]
  have hdv1 : (ImageSequence.dirVector Direction.Right).1 = 1 := rfl
  have hdv2 : (ImageSequence.dirVector Direction.Right).2 = 0 := rfl
  have hsh2 : ∀ i : Nat, ImageSequence.slideShift
      (ImageSequence.dirDimension s Direction.Right) SlideAnimation.SlideIn i
      = ((s.width * 8 : Nat) : Int) - (i : Int) - 1 := by
    intro i
    show ((ImageSequence.dirDimension s Direction.Right : Nat) : Int) - (i : Int) - 1 = _
    rw [hD]
  refine ⟨?_, ?_, ?_⟩
  · show t.bitmaps.length = s.width * 8
    rw [htb, slideBitmaps_length _ _ _ _ _ _ _ hidx, hlen1, hD]
    omega
  · show t.bitmaps[s.width * 8 - 1]? = s.bitmaps[0]?
    have hmid := slideBitmaps_getElem?_mid (s.width * 8) (s.height * 8) s.bitmaps 0
      (ImageSequence.dirDimension s Direction.Right)
      (ImageSequence.dirVector Direction.Right) SlideAnimation.SlideIn hidx
      (s.width * 8 - 1) (by rw [hD]; omega)
    rw [Nat.zero_add] at hmid
    have hsh0 : ImageSequence.slideShift (ImageSequence.dirDimension s Direction.Right)
        SlideAnimation.SlideIn (s.width * 8 - 1) = 0 := by
      rw [hsh2]
      omega
    rw [hsh0, mul_zero, mul_zero] at hmid
    have hmem : s.bitmaps.getD 0 [] ∈ s.bitmaps := by
      rw [List.getD_eq_getElem?_getD, List.getElem?_eq_getElem hidx]
      exact List.get_mem s.bitmaps 0 hidx
    have hfl : (s.bitmaps.getD 0 []).length = s.width * 8 * (s.height * 8) := hlenf _ hmem
    rw [htb, hmid, shiftedFrame_id (s.width * 8) (s.height * 8) (by omega) _ hfl,
      List.getElem?_eq_getElem hidx, List.getD_eq_getElem?_getD,
      List.getElem?_eq_getElem hidx]
    rfl
  · intro i x y hi hx hy
    have hiff := slide_get_iff s 0 Direction.Right SlideAnimation.SlideIn t (by omega) hidx ht
      i (by rw [hD]; exact hi) x y hx hy
    rw [Nat.zero_add] at hiff
    rw [hiff]
    constructor
    · rintro ⟨x0, y0, hget, hcx, hcy⟩
      have hb := (get_eq_some_true_iff s x0 y0 0 hidx).mp hget
      obtain ⟨rfl, rfl⟩ := (hsingle x0 hb.1 y0 hb.2.1).mp hget
      rw [hsh2, hdv1, one_mul] at hcx
      rw [hdv2, zero_mul, add_zero] at hcy
      exact ⟨by omega, by omega⟩
    · rintro ⟨hcx, hcy⟩
      refine ⟨px, py, (hsingle px hpx py hpy).mpr ⟨rfl, rfl⟩, ?_, ?_⟩
      · rw [hsh2, hdv1, one_mul]
        omega
      · rw [hdv2, zero_mul, add_zero]
        omega

/-- Witness for C2 amended at a concrete input: the single-pixel store with
the lit pixel at (0, 0). -/
theorem c2_slide_right_in_single_pixel_witness :
    ∃ t, exOnePixel.slide 0 Direction.Right SlideAnimation.SlideIn = some t ∧
      t.get_frame_count = exOnePixel.width * 8 := by
  have hs : (exOnePixel.slide 0 Direction.Right SlideAnimation.SlideIn).isSome = true := by
    decide
  exact ⟨Option.get _ hs, (Option.some_get hs).symm,
    (c2_slide_right_in_single_pixel exOnePixel 0 0 (Option.get _ hs) (by decide) (by decide)
      (by decide) (by decide) (by decide) (Option.some_get hs).symm).1⟩

/-- Counterexample for C3 as stated: the claim says the SlideOut frame at
offset 7 has no true pixels, but shifting the pixel at (0, 0) seven steps to
the right leaves it at (7, 0), still inside the 8-pixel-wide grid. -/
theorem c3_counterexample :
    (exOnePixel.slide 0 Direction.Right SlideAnimation.SlideOut).bind
      (fun t => t.get 7 0 7) = some true := by decide

/-- C3 amended: slide(0, Right, SlideOut) on the 1-by-1-unit store with only
(0, 0) lit yields 8 frames; frame 0 has (0, 0) true; frame 1 has (1, 0) true
and (0, 0) false; and frame 7 holds exactly one true pixel, at (7, 0) (its
packed bytes are 0x01 followed by seven 0x00), rather than no true pixels. -/
theorem c3_slide_out_example :
    (exOnePixel.slide 0 Direction.Right SlideAnimation.SlideOut).map
        ImageSequence.get_frame_count = some 8 ∧
    (exOnePixel.slide 0 Direction.Right SlideAnimation.SlideOut).bind
        (fun t => t.get 0 0 0) = some true ∧
    (exOnePixel.slide 0 Direction.Right SlideAnimation.SlideOut).bind
        (fun t => t.get 1 0 1) = some true ∧
    (exOnePixel.slide 0 Direction.Right SlideAnimation.SlideOut).bind
        (fun t => t.get 0 0 1) = some false ∧
    (exOnePixel.slide 0 Direction.Right SlideAnimation.SlideOut).bind
        (fun t => t.get_bytes 7) = some [1, 0, 0, 0, 0, 0, 0, 0] := by decide

/-- Counterexample for C4 as stated: on a one-frame store, frame index 1 is
out of range, and each of the four operations reaches unchecked `Vec` indexing
or removal and panics (modelled `none`) instead of yielding an
empty/false/no-op result. -/
theorem c4_counterexample :
    (ImageSequence.new 1 1).duplicate_frame 1 = none ∧
    (ImageSequence.new 1 1).clear_frame 1 = none ∧
    (ImageSequence.new 1 1).delete_frame 1 = none ∧
    (ImageSequence.new 1 1).get_bytes 1 = none := by decide

/-- C4 amended: duplicate_frame, clear_frame, delete_frame and get_bytes are
themselves deliberate unchecked operations: on every out-of-range frame index
they panic (modelled `none`); the bounds-checked accessor `get` returns an
absent result there instead. -/
theorem c4_out_of_range_behaviour (s : ImageSequence) (idx : Nat)
    (h : s.get_frame_count ≤ idx) :
    s.duplicate_frame idx = none ∧ s.clear_frame idx = none ∧
    s.delete_frame idx = none ∧ s.get_bytes idx = none ∧
    (∀ x y : Nat, s.get x y idx = none) := by
  have hlen : s.bitmaps.length ≤ idx := h
  have hnone : s.bitmaps[idx]? = none := List.getElem?_eq_none hlen
  refine ⟨?_, ?_, ?_, ?_, ?_⟩
  · unfold ImageSequence.duplicate_frame
    rw [hnone]
  · unfold ImageSequence.clear_frame
    rw [hnone]
  · unfold ImageSequence.delete_frame
    rw [if_neg (by omega)]
  · unfold ImageSequence.get_bytes
    rw [hnone]
    rfl
  · intro x y
    unfold ImageSequence.get
    by_cases hb : x < s.width * 8 ∧ y < s.height * 8
    · rw [if_pos hb, hnone]
      rfl
    · rw [if_neg hb]

/-- Witness for C4 amended at a concrete input: the fresh one-frame store and
index 5. -/
theorem c4_out_of_range_behaviour_witness :
    (ImageSequence.new 1 1).duplicate_frame 5 = none :=
  (c4_out_of_range_behaviour (ImageSequence.new 1 1) 5 (by decide)).1

set_option maxRecDepth 4000 in
/-- Packing inverts MSB-first unpacking on a single byte. -/
theorem bits_to_byte_byteToBits :
    ∀ b : Nat, b < 256 → ImageSequence.bits_to_byte (byteToBits b) = b := by decide

/-- Chunking the concatenation of eight-bit groups recovers the groups. -/
theorem chunksExact8_flatMap (bs : List Nat) :
    ImageSequence.chunksExact8 (bs.flatMap byteToBits) = bs.map byteToBits := by
  induction bs with
  | nil => rfl
  | cons b rest ih =>
      rw [List.flatMap_cons, List.map_cons]
      show ImageSequence.chunksExact8 (byteToBits b ++ rest.flatMap byteToBits) = _
      simp only [byteToBits, List.cons_append, List.nil_append, ImageSequence.chunksExact8]
      show _ :: ImageSequence.chunksExact8 (rest.flatMap byteToBits)
        = _ :: List.map byteToBits rest
      rw [ih]

/-- C5: byte packing is the MSB-first inverse of unpacking: a frame whose
pixels are the MSB-first unpacking of a byte sequence is packed by `get_bytes`
back to exactly that byte sequence. -/
theorem c5_get_bytes_roundtrip (s : ImageSequence) (idx : Nat) (bs : List Nat)
    (hbs : ∀ b ∈ bs, b < 256)
    (hframe : s.bitmaps[idx]? = some (bs.flatMap byteToBits)) :
    s.get_bytes idx = some bs := by
  unfold ImageSequence.get_bytes
  rw [hframe]
  show some ((ImageSequence.chunksExact8 (bs.flatMap byteToBits)).map
    ImageSequence.bits_to_byte) = some bs
  rw [chunksExact8_flatMap, List.map_map]
  have hcg : bs.map (ImageSequence.bits_to_byte ∘ byteToBits) = bs.map (fun b => b) :=
    List.map_congr_left (fun b hb => bits_to_byte_byteToBits b (hbs b hb))
  rw [hcg, List.map_id']

/-- Witness for C5 at a concrete input: a 16-pixel frame unpacked from the
bytes 0xA5 and 0x3C. -/
theorem c5_get_bytes_roundtrip_witness :
    exBytes.get_bytes 0 = some [165, 60] :=
  c5_get_bytes_roundtrip exBytes 0 [165, 60] (by decide) (by decide)

/-! Analysis of the frame swap used by the reorder operations. -/

theorem getD_spec (l : List (List Bool)) (i : Nat) (hi : i < l.length) :
    l[i]? = some (l.getD i []) := by
  rw [List.getD_eq_getElem?_getD, List.getElem?_eq_getElem hi]
  rfl

theorem swapFrames_length (l : List (List Bool)) (i j : Nat) :
    (ImageSequence.swapFrames l i j).length = l.length := by
  unfold ImageSequence.swapFrames
  rw [List.length_set, List.length_set]

theorem swapFrames_getElem? (l : List (List Bool)) (i j k : Nat)
    (hi : i < l.length) (hj : j < l.length) :
    (ImageSequence.swapFrames l i j)[k]? =
      if k = i then l[j]? else if k = j then l[i]? else l[k]? := by
  unfold ImageSequence.swapFrames
  by_cases hkj : k = j
  · subst hkj
    rw [List.getElem?_set_self (by rw [List.length_set]; exact hj)]
    by_cases hki : k = i
    · subst hki
      rw [if_pos rfl, getD_spec l k hj]
    · rw [if_neg hki, if_pos rfl, getD_spec l i hi]
  · rw [List.getElem?_set_ne (Ne.symm hkj)]
    by_cases hki : k = i
    · subst hki
      rw [List.getElem?_set_self hi, if_pos rfl, getD_spec l j hj]
    · rw [List.getElem?_set_ne (Ne.symm hki), if_neg hki, if_neg hkj]

theorem swapFrames_swapFrames (l : List (List Bool)) (i j : Nat)
    (hi : i < l.length) (hj : j < l.length) :
    ImageSequence.swapFrames (ImageSequence.swapFrames l i j) j i = l := by
  apply List.ext_getElem?
  intro k
  have hlen : (ImageSequence.swapFrames l i j).length = l.length := swapFrames_length l i j
  by_cases hk : k < l.length
  · rw [swapFrames_getElem? (ImageSequence.swapFrames l i j) j i k (by omega) (by omega)]
    by_cases hkj : k = j
    · rw [if_pos hkj, swapFrames_getElem? l i j i hi hj, if_pos rfl, hkj]
    · rw [if_neg hkj]
      by_cases hki : k = i
      · rw [if_pos hki, swapFrames_getElem? l i j j hi hj]
        by_cases hji : j = i
        · rw [if_pos hji, hki, hji]
        · rw [if_neg hji, if_pos rfl, hki]
      · rw [if_neg hki, swapFrames_getElem? l i j k hi hj, if_neg hki, if_neg hkj]
  · have h1 : (ImageSequence.swapFrames (ImageSequence.swapFrames l i j) j i).length ≤ k := by
      rw [swapFrames_length, swapFrames_length]
      omega
    rw [List.getElem?_eq_none h1, List.getElem?_eq_none (by omega)]

theorem move_up_swap_eq (s : ImageSequence) (idx : Nat) (h0 : idx ≠ 0)
    (hlt : idx < s.bitmaps.length) :
    s.move_up idx
      = some (true, { s with bitmaps := ImageSequence.swapFrames s.bitmaps idx (idx - 1) }) := by
  unfold ImageSequence.move_up
  rw [if_pos h0, if_pos hlt]

theorem move_down_swap_eq (s : ImageSequence) (idx : Nat)
    (hne : idx ≠ s.bitmaps.length - 1) (hlt : idx + 1 < s.bitmaps.length) :
    s.move_down idx
      = some (true, { s with bitmaps := ImageSequence.swapFrames s.bitmaps idx (idx + 1) }) := by
  unfold ImageSequence.move_down
  rw [if_pos hne, if_pos hlt]

/-- C6: with at least one frame, move_up(0) and move_down(frame_count-1) both
return false and leave the store unchanged, and each successful move is undone
by the opposite move at the adjacent index. -/
theorem c6_move_boundaries_and_inverse (s : ImageSequence)
    (h1 : 1 ≤ s.get_frame_count) :
    s.move_up 0 = some (false, s) ∧
    s.move_down (s.get_frame_count - 1) = some (false, s) ∧
    (∀ i : Nat, ∀ t : ImageSequence, s.move_up i = some (true, t) →
      t.move_down (i - 1) = some (true, s)) ∧
    (∀ i : Nat, ∀ t : ImageSequence, s.move_down i = some (true, t) →
      t.move_up (i + 1) = some (true, s)) := by
  refine ⟨?_, ?_, ?_, ?_⟩
  · unfold ImageSequence.move_up
    rw [if_neg (fun hne => hne rfl)]
  · unfold ImageSequence.move_down
    rw [if_neg (fun hne => hne rfl)]
  · intro i t hmu
    unfold ImageSequence.move_up at hmu
    by_cases hi0 : i ≠ 0
    · rw [if_pos hi0] at hmu
      by_cases hilen : i < s.bitmaps.length
      · rw [if_pos hilen] at hmu
        simp only [Option.some.injEq, Prod.mk.injEq, true_and] at hmu
        obtain rfl := hmu.symm
        have htlen : (ImageSequence.swapFrames s.bitmaps i (i - 1)).length
            = s.bitmaps.length := swapFrames_length _ _ _
        rw [move_down_swap_eq _ (i - 1) (by show i - 1 ≠ _ - 1; rw [htlen]; omega)
          (by show i - 1 + 1 < _; rw [htlen]; omega)]
        have hswap : ImageSequence.swapFrames (ImageSequence.swapFrames s.bitmaps i (i - 1))
            (i - 1) (i - 1 + 1) = s.bitmaps := by
          have hi1 : i - 1 + 1 = i := by omega
          rw [hi1]
          exact swapFrames_swapFrames s.bitmaps i (i - 1) hilen (by omega)
        rw [show ImageSequence.swapFrames
            ({ s with bitmaps := ImageSequence.swapFrames s.bitmaps i (i - 1) } :
              ImageSequence).bitmaps (i - 1) (i - 1 + 1) = s.bitmaps from hswap]
      · rw [if_neg hilen] at hmu
        cases hmu
    · rw [if_neg hi0] at hmu
      simp only [Option.some.injEq, Prod.mk.injEq] at hmu
      cases hmu.1
  · intro i t hmd
    unfold ImageSequence.move_down at hmd
    by_cases hilast : i ≠ s.bitmaps.length - 1
    · rw [if_pos hilast] at hmd
      by_cases hilen : i + 1 < s.bitmaps.length
      · rw [if_pos hilen] at hmd
        simp only [Option.some.injEq, Prod.mk.injEq, true_and] at hmd
        obtain rfl := hmd.symm
        have htlen : (ImageSequence.swapFrames s.bitmaps i (i + 1)).length
            = s.bitmaps.length := swapFrames_length _ _ _
        rw [move_up_swap_eq _ (i + 1) (by omega) (by show i + 1 < _; rw [htlen]; omega)]
        have hswap : ImageSequence.swapFrames (ImageSequence.swapFrames s.bitmaps i (i + 1))
            (i + 1) (i + 1 - 1) = s.bitmaps := by
          have hi1 : i + 1 - 1 = i := by omega
          rw [hi1]
          exact swapFrames_swapFrames s.bitmaps i (i + 1) (by omega) hilen
        rw [show ImageSequence.swapFrames
            ({ s with bitmaps := ImageSequence.swapFrames s.bitmaps i (i + 1) } :
              ImageSequence).bitmaps (i + 1) (i + 1 - 1) = s.bitmaps from hswap]
      · rw [if_neg hilen] at hmd
        cases hmd
    · rw [if_neg hilast] at hmd
      simp only [Option.some.injEq, Prod.mk.injEq] at hmd
      cases hmd.1

/-- Witness for C6 at a concrete input: the two-frame store. -/
theorem c6_move_boundaries_and_inverse_witness :
    exTwoFrames.move_up 0 = some (false, exTwoFrames) :=
  (c6_move_boundaries_and_inverse exTwoFrames (by decide)).1

/-- C7: for unit dimensions in [1,8] squared, a fresh store has one frame, all
pixels false, and pixel dimensions (width_units*8, height_units*8). -/
theorem c7_new_store (wu hu : Nat) (h1 : 1 ≤ wu) (h2 : wu ≤ 8)
    (h3 : 1 ≤ hu) (h4 : hu ≤ 8) :
    (ImageSequence.new wu hu).get_frame_count = 1 ∧
    (ImageSequence.new wu hu).get_dimensions_pixels = (wu * 8, hu * 8) ∧
    (∀ x : Nat, x < wu * 8 → ∀ y : Nat, y < hu * 8 →
      (ImageSequence.new wu hu).get x y 0 = some false) := by
  refine ⟨rfl, rfl, ?_⟩
  intro x hx y hy
  unfold ImageSequence.get ImageSequence.new
  rw [if_pos ⟨hx, hy⟩]
  show (List.replicate (wu * 8 * hu * 8) false)[y * (wu * 8) + x]? = some false
  apply List.getElem?_replicate_of_lt
  have hlt : y * (wu * 8) + x < wu * 8 * (hu * 8) := encode_lt hx hy
  have heq : wu * 8 * (hu * 8) = wu * 8 * hu * 8 := by ring
  omega

/-- Witness for C7 at a concrete input: dimensions 1 and 1, pixel (0, 0). -/
theorem c7_new_store_witness : (ImageSequence.new 1 1).get 0 0 0 = some false :=
  (c7_new_store 1 1 (by decide) (by decide) (by decide) (by decide)).2.2
    0 (by decide) 0 (by decide)

/-- C8: inserting a blank frame at any index up to frame_count and deleting at
the same index restores the original store exactly. -/
theorem c8_insert_delete_roundtrip (s : ImageSequence) (idx : Nat)
    (h : idx ≤ s.get_frame_count) :
    (s.insert_frame idx).bind (fun t => t.delete_frame idx) = some s := by
  have hlen : idx ≤ s.bitmaps.length := h
  unfold ImageSequence.insert_frame
  rw [if_pos hlen]
  show ImageSequence.delete_frame _ idx = some s
  unfold ImageSequence.delete_frame
  rw [if_pos (show idx < _ by
    show idx < (s.bitmaps.insertIdx idx
      (List.replicate (s.width * 8 * s.height * 8) false)).length
    rw [List.length_insertIdx _ _ hlen]
    omega)]
  rw [show (({ s with bitmaps := s.bitmaps.insertIdx idx (List.replicate (s.width * 8 * s.height * 8) false) } : ImageSequence)).bitmaps.eraseIdx idx = s.bitmaps from List.eraseIdx_insertIdx idx s.bitmaps]

/-- Witness for C8 at a concrete input: the fresh store, insertion index 1. -/
theorem c8_insert_delete_roundtrip_witness :
    ((ImageSequence.new 1 1).insert_frame 1).bind (fun t => t.delete_frame 1)
      = some (ImageSequence.new 1 1) :=
  c8_insert_delete_roundtrip (ImageSequence.new 1 1) 1 (by decide)

/-- C9: rendering an all-false 1-by-1-unit frame as text yields exactly the
brace-delimited list of eight zero-padded hexadecimal byte literals. -/
theorem c9_frame_as_text_blank (s : ImageSequence) (idx : Nat)
    (hw : s.width = 1) (hh : s.height = 1)
    (hframe : s.bitmaps[idx]? = some (List.replicate 64 false)) :
    s.get_frame_as_string idx
      = some "\x7b0x00, 0x00, 0x00, 0x00, 0x00, 0x00, 0x00, 0x00\x7d" := by
  unfold ImageSequence.get_frame_as_string ImageSequence.get_bytes
  rw [hframe]
  rfl

/-- Witness for C9 at a concrete input: the fresh 1-by-1-unit store, frame 0. -/
theorem c9_frame_as_text_blank_witness :
    (ImageSequence.new 1 1).get_frame_as_string 0
      = some "\x7b0x00, 0x00, 0x00, 0x00, 0x00, 0x00, 0x00, 0x00\x7d" :=
  c9_frame_as_text_blank (ImageSequence.new 1 1) 0 rfl rfl (by decide)
